import Mathlib

/-!
Verification of the `pa` (Port Authority) port-allocation core.

The definitions below are a shallow embedding of the lock-free allocator:
the `vendor` struct holding `Ports`, an array of `uint32` whose slot `0` is
the next-port hint and whose slots `minPort..maxPort` are claim flags, and
its methods `onIffOff` (CAS 0→1), `off`, `loadNext`, `updateNext`, `next`,
`assign` and `release`, together with the hint clamp performed at `init`.
Machine `uint32` values are modelled as `Nat`: every value stored by the
allocator is at most `maxPort + 1 ≤ 65536`, far below `2^32`, so no store
can overflow.  Go's `(int, error)` returns are modelled as
`Except PaError Nat` paired with the post-state.
-/

/-- The three recoverable allocator errors of the source. -/
inductive PaError where
  | portOutOfRange
  | allPortsAssigned
  | portAlreadyAssigned
deriving DecidableEq, Repr

/-- The vendor state: `Ports i` is the `uint32` stored at index `i`.
Index `0` holds the nominal next port to be assigned; each index in
`minPort..maxPort` holds `0` (free) or `1` (assigned). -/
structure Vendor where
  Ports : Nat → Nat

/-- `onIffOff` : `atomic.CompareAndSwapUint32(&v.Ports[port], 0, 1)` —
sets the slot to `1` iff it was `0`, returning whether the swap happened,
paired with the post-state. -/
def onIffOff (v : Vendor) (port : Nat) : Bool × Vendor :=
  if v.Ports port = 0 then
    (true, ⟨fun i => if i = port then 1 else v.Ports i⟩)
  else
    (false, v)

/-- `off` : `atomic.StoreUint32(&v.Ports[port], 0)`. -/
def off (v : Vendor) (port : Nat) : Vendor :=
  ⟨fun i => if i = port then 0 else v.Ports i⟩

/-- `loadNext` : `atomic.LoadUint32(&v.Ports[0])`. -/
def loadNext (v : Vendor) : Nat :=
  v.Ports 0

/-- `updateNext` : `atomic.StoreUint32(&v.Ports[0], i)`. -/
def updateNext (v : Vendor) (i : Nat) : Vendor :=
  ⟨fun j => if j = 0 then i else v.Ports j⟩

/-- `autoPort = 0`, the magic number for auto-assignment. -/
def autoPort : Nat := 0

/-- The fallback scan of `next`: `for n := range v.Ports[minPort:maxPort]`
with body `np = n + minPort; if v.onIffOff(np) { v.updateNext(uint32(np)+1);
return np, nil }`.  The list argument is instantiated with
`List.range (maxP - minP)`, the index sequence of the Go slice
`Ports[minPort:maxPort]` (ascending, end index exclusive). -/
def scanLoop (minP : Nat) : List Nat → Vendor → Option Nat × Vendor
  | [], v => (none, v)
  | n :: rest, v =>
    let np := n + minP
    let r := onIffOff v np
    if r.fst then (some np, updateNext r.snd (np + 1))
    else scanLoop minP rest r.snd

/-- `next` : reads the hint; fails fast when it exceeds `maxPort`; tries the
hinted port; otherwise scans `Ports[minPort:maxPort]`, and on total failure
latches the hint at `maxPort + 1`. -/
def next (minP maxP : Nat) (v : Vendor) : Except PaError Nat × Vendor :=
  let np := loadNext v
  if np > maxP then (Except.error PaError.allPortsAssigned, v)
  else
    let r := onIffOff v np
    if r.fst then (Except.ok np, updateNext r.snd (loadNext r.snd + 1))
    else
      match scanLoop minP (List.range (maxP - minP)) r.snd with
      | (some p, w) => (Except.ok p, w)
      | (none, w) => (Except.error PaError.allPortsAssigned, updateNext w (maxP + 1))

/-- `assign` : auto-delegates on `autoPort`, range-checks, then CASes the
requested port. -/
def assign (minP maxP : Nat) (v : Vendor) (port : Nat) : Except PaError Nat × Vendor :=
  if port = autoPort then next minP maxP v
  else if port < minP ∨ maxP < port then (Except.error PaError.portOutOfRange, v)
  else
    let r := onIffOff v port
    if r.fst then (Except.ok port, r.snd)
    else (Except.error PaError.portAlreadyAssigned, r.snd)

/-- `release` : range-checks, clears the flag and rewinds the hint to the
released port. -/
def release (minP maxP : Nat) (v : Vendor) (port : Nat) : Except PaError Nat × Vendor :=
  if port < minP ∨ maxP < port then (Except.error PaError.portOutOfRange, v)
  else (Except.ok port, updateNext (off v port) port)

/-- The hint clamp at the end of `init`: `np := int(v.Ports[0])`; if
`np < minPort` store `minPort`; if `np > maxPort+1` store `maxPort+1`. -/
def clampHint (minP maxP : Nat) (v : Vendor) : Vendor :=
  let np := loadNext v
  if np < minP then updateNext v minP
  else if maxP + 1 < np then updateNext v (maxP + 1)
  else v

/-- All-free table with the hint at `9000`: the start state of the spec
scenarios for ranges beginning at `9000`. -/
def freeHint9000 : Vendor := ⟨fun i => if i = 0 then 9000 else 0⟩

/-- Hint `9000`, port `9000` assigned, everything else (notably `9001`)
free: the input exposing the scan's exclusive upper bound. -/
def only9001Free : Vendor :=
  ⟨fun i => if i = 0 then 9000 else if i = 9000 then 1 else 0⟩

/-- C1: for any port `p` of `[minPort, maxPort]` and any table state,
`tryClaim` (= `onIffOff`) succeeds iff slot `p` was free, a success sets
slot `p` to assigned, and a second immediate `tryClaim p` fails. -/
theorem onIffOff_claim_spec (lo hi p : Nat) (v : Vendor) (h1 : lo ≤ p) (h2 : p ≤ hi) :
    ((onIffOff v p).fst = true ↔ v.Ports p = 0) ∧
    ((onIffOff v p).fst = true → (onIffOff v p).snd.Ports p = 1) ∧
    ((onIffOff v p).fst = true → (onIffOff (onIffOff v p).snd p).fst = false) := by
  by_cases h : v.Ports p = 0 <;> simp [onIffOff, h]

/-- Witness for `onIffOff_claim_spec` at `lo = 9000`, `hi = 9002`,
`p = 9000`, the all-free table. -/
theorem onIffOff_claim_spec_witness :
    9000 ≤ 9000 ∧ 9000 ≤ 9002 ∧
    (((onIffOff freeHint9000 9000).fst = true ↔ freeHint9000.Ports 9000 = 0) ∧
     ((onIffOff freeHint9000 9000).fst = true →
       (onIffOff freeHint9000 9000).snd.Ports 9000 = 1) ∧
     ((onIffOff freeHint9000 9000).fst = true →
       (onIffOff (onIffOff freeHint9000 9000).snd 9000).fst = false)) :=
  ⟨by decide, by decide,
   onIffOff_claim_spec 9000 9002 9000 freeHint9000 (by decide) (by decide)⟩

/-- State after `GET /` on the all-free range `9000..9002`. -/
def trace1 : Except PaError Nat × Vendor := next 9000 9002 freeHint9000

/-- State after the second `GET /`. -/
def trace2 : Except PaError Nat × Vendor := next 9000 9002 trace1.snd

/-- State after `POST /9000` (which fails). -/
def trace3 : Except PaError Nat × Vendor := assign 9000 9002 trace2.snd 9000

/-- State after `DELETE /9000`. -/
def trace4 : Except PaError Nat × Vendor := release 9000 9002 trace3.snd 9000

/-- State after the final `GET /`. -/
def trace5 : Except PaError Nat × Vendor := next 9000 9002 trace4.snd

/-- C3: the reference scenario on range `9000..9002` starting all-free with
hint `9000`: allocate `9000`, allocate `9001`, `assign 9000` fails with
`PortAlreadyAssigned`, `release 9000` returns `9000` and rewinds the hint to
`9000`, and the following allocation returns the just-freed `9000`. -/
theorem scenario_9000_9002 :
    trace1.fst = Except.ok 9000 ∧
    trace2.fst = Except.ok 9001 ∧
    trace3.fst = Except.error PaError.portAlreadyAssigned ∧
    trace4.fst = Except.ok 9000 ∧
    loadNext trace4.snd = 9000 ∧
    trace5.fst = Except.ok 9000 := by
  exact ⟨rfl, rfl, rfl, rfl, rfl, rfl⟩

/-- C4: exhaustive behaviour of `assign`: the sentinel `0` delegates to
`next`; an out-of-range port fails with `PortOutOfRange` leaving the state
untouched; an in-range free port is claimed and returned; an in-range
non-free port fails with `PortAlreadyAssigned`. -/
theorem assign_cases (lo hi : Nat) (v : Vendor) (port : Nat) :
    (port = 0 → assign lo hi v port = next lo hi v) ∧
    (port ≠ 0 → (port < lo ∨ hi < port) →
      assign lo hi v port = (Except.error PaError.portOutOfRange, v)) ∧
    (port ≠ 0 → lo ≤ port → port ≤ hi → v.Ports port = 0 →
      (assign lo hi v port).fst = Except.ok port) ∧
    (port ≠ 0 → lo ≤ port → port ≤ hi → v.Ports port ≠ 0 →
      (assign lo hi v port).fst = Except.error PaError.portAlreadyAssigned) := by
  refine ⟨fun h0 => ?_, fun h0 hr => ?_,
          fun h0 h1 h2 hf => ?_, fun h0 h1 h2 hf => ?_⟩
  · subst h0; simp [assign, autoPort]
  · simp [assign, autoPort, h0, hr]
  · have hnr : ¬(port < lo ∨ hi < port) := by omega
    simp [assign, autoPort, h0, hnr, onIffOff, hf]
  · have hnr : ¬(port < lo ∨ hi < port) := by omega
    simp [assign, autoPort, h0, hnr, onIffOff, hf]

/-- Witness for `assign_cases`, exercising all four branches on concrete
inputs for the range `9000..9002` (resp. `9000..9001`). -/
theorem assign_cases_witness :
    (assign 9000 9002 freeHint9000 0 = next 9000 9002 freeHint9000) ∧
    (assign 9000 9002 freeHint9000 8999 =
      (Except.error PaError.portOutOfRange, freeHint9000)) ∧
    ((assign 9000 9002 freeHint9000 9001).fst = Except.ok 9001) ∧
    ((assign 9000 9001 only9001Free 9000).fst =
      Except.error PaError.portAlreadyAssigned) :=
  ⟨(assign_cases 9000 9002 freeHint9000 0).1 rfl,
   (assign_cases 9000 9002 freeHint9000 8999).2.1 (by decide) (by decide),
   (assign_cases 9000 9002 freeHint9000 9001).2.2.1
     (by decide) (by decide) (by decide) (by decide),
   (assign_cases 9000 9001 only9001Free 9000).2.2.2
     (by decide) (by decide) (by decide) (by decide)⟩

/-- C5 counterexample: releasing the already-free port `9001` from the
all-free state (hint `9000`) succeeds, yet the allocator state is NOT
identical afterwards — the hint has moved from `9000` to `9001`. -/
theorem release_free_moves_hint :
    freeHint9000.Ports 9001 = 0 ∧
    (release 9000 9002 freeHint9000 9001).fst = Except.ok 9001 ∧
    loadNext (release 9000 9002 freeHint9000 9001).snd ≠ loadNext freeHint9000 := by
  exact ⟨rfl, rfl, by decide⟩

/-- C5 amended: releasing an in-range already-free port `p` is not an error
(it returns `p`), leaves every claim flag unchanged, but sets the hint to
`p` — so the state is unchanged only when the hint already was `p`. -/
theorem release_free_amended (lo hi p : Nat) (v : Vendor) (h0 : 1 ≤ lo)
    (h1 : lo ≤ p) (h2 : p ≤ hi) (hf : v.Ports p = 0) :
    (release lo hi v p).fst = Except.ok p ∧
    (∀ q, 1 ≤ q → (release lo hi v p).snd.Ports q = v.Ports q) ∧
    loadNext (release lo hi v p).snd = p := by
  have hnr : ¬(p < lo ∨ hi < p) := by omega
  refine ⟨by simp [release, hnr], fun q hq => ?_,
          by simp [release, hnr, updateNext, loadNext]⟩
  have hq0 : q ≠ 0 := by omega
  by_cases hqp : q = p
  · subst hqp
    simp [release, hnr, updateNext, off, hq0, hf]
  · simp [release, hnr, updateNext, off, hq0, hqp]

/-- Witness for `release_free_amended` at `p = 9001` on the all-free
state. -/
theorem release_free_amended_witness :
    1 ≤ 9000 ∧ 9000 ≤ 9001 ∧ 9001 ≤ 9002 ∧ freeHint9000.Ports 9001 = 0 ∧
    ((release 9000 9002 freeHint9000 9001).fst = Except.ok 9001 ∧
     (∀ q, 1 ≤ q →
       (release 9000 9002 freeHint9000 9001).snd.Ports q = freeHint9000.Ports q) ∧
     loadNext (release 9000 9002 freeHint9000 9001).snd = 9001) :=
  ⟨by decide, by decide, by decide, by decide,
   release_free_amended 9000 9002 9001 freeHint9000
     (by decide) (by decide) (by decide) (by decide)⟩

/-- C7: `assign p` on an in-range, already-assigned port fails with
`PortAlreadyAssigned` and returns the state entirely unchanged (every slot,
including `p` and the hint). -/
theorem assign_already_assigned_unchanged (lo hi p : Nat) (v : Vendor)
    (h0 : 1 ≤ lo) (h1 : lo ≤ p) (h2 : p ≤ hi) (ha : v.Ports p ≠ 0) :
    assign lo hi v p = (Except.error PaError.portAlreadyAssigned, v) := by
  have hp0 : ¬(p = 0) := by omega
  have hnr : ¬(p < lo ∨ hi < p) := by omega
  simp [assign, autoPort, hp0, hnr, onIffOff, ha]

/-- Witness for `assign_already_assigned_unchanged` at `p = 9000` on the
state where `9000` is assigned. -/
theorem assign_already_assigned_unchanged_witness :
    1 ≤ 9000 ∧ 9000 ≤ 9000 ∧ 9000 ≤ 9001 ∧ only9001Free.Ports 9000 ≠ 0 ∧
    assign 9000 9001 only9001Free 9000 =
      (Except.error PaError.portAlreadyAssigned, only9001Free) :=
  ⟨by decide, by decide, by decide, by decide,
   assign_already_assigned_unchanged 9000 9001 9000 only9001Free
     (by decide) (by decide) (by decide) (by decide)⟩

/-- C8: from any state, `release p` followed by `assign p` (for in-range
`p`) makes the `assign` succeed and return `p`. -/
theorem release_then_assign_ok (lo hi p : Nat) (v : Vendor)
    (h0 : 1 ≤ lo) (h1 : lo ≤ p) (h2 : p ≤ hi) :
    (assign lo hi (release lo hi v p).snd p).fst = Except.ok p := by
  have hp0 : ¬(p = 0) := by omega
  have hnr : ¬(p < lo ∨ hi < p) := by omega
  have hfree : (release lo hi v p).snd.Ports p = 0 := by
    simp [release, hnr, updateNext, off, hp0]
  simp [assign, autoPort, hp0, hnr, onIffOff, hfree]

/-- Witness for `release_then_assign_ok` at `p = 9000` on the state where
`9000` is assigned. -/
theorem release_then_assign_ok_witness :
    1 ≤ 9000 ∧ 9000 ≤ 9000 ∧ 9000 ≤ 9001 ∧
    (assign 9000 9001 (release 9000 9001 only9001Free 9000).snd 9000).fst =
      Except.ok 9000 :=
  ⟨by decide, by decide, by decide,
   release_then_assign_ok 9000 9001 9000 only9001Free
     (by decide) (by decide) (by decide)⟩

/-- C2: the fallback scan misses `maxPort`.  With range `9000..9001`, hint
`9000`, port `9000` assigned and port `9001 = maxPort` free, `next` fails
with `AllPortsAssigned` — and leaves `9001` still free — although exactly
one port of the range is free.  The scan `Ports[minPort:maxPort]` excludes
`maxPort`, contradicting the source's own comment that it scans all
ports. -/
theorem next_misses_maxPort :
    only9001Free.Ports 9001 = 0 ∧
    (next 9000 9001 only9001Free).fst = Except.error PaError.allPortsAssigned ∧
    (next 9000 9001 only9001Free).snd.Ports 9001 = 0 := by
  exact ⟨rfl, rfl, rfl⟩

/-- A successful `scanLoop` returns `n + minP` for some index `n` of the
scanned list. -/
theorem scanLoop_mem (lo : Nat) (l : List Nat) (v : Vendor) (p : Nat)
    (h : (scanLoop lo l v).fst = some p) : ∃ n ∈ l, p = n + lo := by
  induction l generalizing v with
  | nil => simp [scanLoop] at h
  | cons n rest ih =>
    by_cases hc : v.Ports (n + lo) = 0
    · simp [scanLoop, onIffOff, hc] at h
      exact ⟨n, by simp, h.symm⟩
    · simp only [scanLoop, onIffOff, hc, if_neg, if_false] at h
      obtain ⟨m, hm, hp⟩ := ih v h
      exact ⟨m, by simp [hm], hp⟩

/-- A successful `scanLoop` leaves the hint at the found port plus one. -/
theorem scanLoop_some_hint (lo : Nat) (l : List Nat) (v : Vendor) (p : Nat)
    (h : (scanLoop lo l v).fst = some p) :
    loadNext (scanLoop lo l v).snd = p + 1 := by
  induction l generalizing v with
  | nil => simp [scanLoop] at h
  | cons n rest ih =>
    by_cases hc : v.Ports (n + lo) = 0
    · simp [scanLoop, onIffOff, hc] at h ⊢
      simp [updateNext, loadNext, h]
    · simp only [scanLoop, onIffOff, hc, if_neg, if_false] at h ⊢
      exact ih v h

/-- A failed `scanLoop` leaves the state exactly as it found it: every
candidate's CAS failed, so nothing was written. -/
theorem scanLoop_none_state (lo : Nat) (l : List Nat) (v : Vendor)
    (h : (scanLoop lo l v).fst = none) : (scanLoop lo l v).snd = v := by
  induction l generalizing v with
  | nil => simp [scanLoop]
  | cons n rest ih =>
    by_cases hc : v.Ports (n + lo) = 0
    · simp [scanLoop, onIffOff, hc] at h
    · simp only [scanLoop, onIffOff, hc, if_neg, if_false] at h ⊢
      exact ih v h

/-- `scanLoop` never writes to a slot that is neither index `0` nor one of
the scanned candidates. -/
theorem scanLoop_preserves (lo : Nat) (l : List Nat) (v : Vendor) (q : Nat)
    (hq0 : q ≠ 0) (hql : ∀ n ∈ l, q ≠ n + lo) :
    (scanLoop lo l v).snd.Ports q = v.Ports q := by
  induction l generalizing v with
  | nil => simp [scanLoop]
  | cons n rest ih =>
    by_cases hc : v.Ports (n + lo) = 0
    · have hqn : q ≠ n + lo := hql n (by simp)
      simp [scanLoop, onIffOff, hc, updateNext, hq0, hqn]
    · have hrest : ∀ m ∈ rest, q ≠ m + lo := fun m hm => hql m (by simp [hm])
      simp only [scanLoop, onIffOff, hc, if_neg, if_false]
      exact ih v hrest

/-- C6: from a state whose hint lies in `[minPort, maxPort + 1]` (as
initialization establishes and every operation preserves), a successful
`next` returns a port inside `[minPort, maxPort]`. -/
theorem next_ok_in_range (lo hi p : Nat) (v : Vendor)
    (hl : lo ≤ loadNext v) (hu : loadNext v ≤ hi + 1)
    (h : (next lo hi v).fst = Except.ok p) : lo ≤ p ∧ p ≤ hi := by
  by_cases hgt : loadNext v > hi
  · simp [next, hgt] at h
  · by_cases hc : v.Ports (loadNext v) = 0
    · simp [next, hgt, onIffOff, hc] at h
      omega
    · rcases hscan : scanLoop lo (List.range (hi - lo)) v with ⟨res, w⟩
      rcases res with _ | q
      · simp [next, hgt, onIffOff, hc, hscan] at h
      · have hfst : (scanLoop lo (List.range (hi - lo)) v).fst = some q := by
          simp [hscan]
        obtain ⟨n, hn, hq⟩ := scanLoop_mem lo (List.range (hi - lo)) v q hfst
        have hn' : n < hi - lo := List.mem_range.mp hn
        have hp : p = q := by
          simp [next, hgt, onIffOff, hc, hscan] at h
          omega
        omega

/-- Witness for `next_ok_in_range` on the all-free state with range
`9000..9002`. -/
theorem next_ok_in_range_witness :
    9000 ≤ loadNext freeHint9000 ∧ loadNext freeHint9000 ≤ 9002 + 1 ∧
    (next 9000 9002 freeHint9000).fst = Except.ok 9000 ∧
    (9000 ≤ 9000 ∧ 9000 ≤ 9002) :=
  ⟨by decide, by decide, rfl,
   next_ok_in_range 9000 9002 9000 freeHint9000 (by decide) (by decide) rfl⟩

/-- C9: whenever the hint read at entry exceeds `maxPort`, `next` fails with
`AllPortsAssigned` and performs no claim or scan (the state is returned
untouched); moreover, on the size-one range `9000..9000` starting all-free,
the first allocation returns `9000` and the second fails with
`AllPortsAssigned`. -/
theorem next_fast_exhaustion (lo hi : Nat) (v : Vendor) (h : hi < loadNext v) :
    next lo hi v = (Except.error PaError.allPortsAssigned, v) ∧
    (next 9000 9000 freeHint9000).fst = Except.ok 9000 ∧
    (next 9000 9000 (next 9000 9000 freeHint9000).snd).fst =
      Except.error PaError.allPortsAssigned := by
  refine ⟨by simp [next, h], rfl, rfl⟩

/-- Witness for `next_fast_exhaustion` at the state reached after
allocating the single port of the range `9000..9000`. -/
theorem next_fast_exhaustion_witness :
    9000 < loadNext (next 9000 9000 freeHint9000).snd ∧
    (next 9000 9000 (next 9000 9000 freeHint9000).snd =
      (Except.error PaError.allPortsAssigned, (next 9000 9000 freeHint9000).snd) ∧
     (next 9000 9000 freeHint9000).fst = Except.ok 9000 ∧
     (next 9000 9000 (next 9000 9000 freeHint9000).snd).fst =
       Except.error PaError.allPortsAssigned) :=
  ⟨by decide,
   next_fast_exhaustion 9000 9000 (next 9000 9000 freeHint9000).snd (by decide)⟩

/-- The hint clamp of `init` lands in `[minPort, maxPort + 1]` from any
starting state. -/
theorem clampHint_bounds (lo hi : Nat) (w : Vendor) (hr : lo ≤ hi) :
    lo ≤ loadNext (clampHint lo hi w) ∧ loadNext (clampHint lo hi w) ≤ hi + 1 := by
  simp only [clampHint, loadNext, updateNext]
  split_ifs with hlt hgt
  · refine ⟨by simp, by simp; omega⟩
  · refine ⟨by simp; omega, by simp⟩
  · omega

/-- `next` keeps the hint in `[minPort, maxPort + 1]` whenever it starts
there. -/
theorem next_hint_bounds (lo hi : Nat) (v : Vendor) (h0 : 1 ≤ lo) (hr : lo ≤ hi)
    (hl : lo ≤ loadNext v) (hu : loadNext v ≤ hi + 1) :
    lo ≤ loadNext (next lo hi v).snd ∧ loadNext (next lo hi v).snd ≤ hi + 1 := by
  simp only [loadNext] at hl hu ⊢
  by_cases hgt : v.Ports 0 > hi
  · simp [next, loadNext, hgt]
    omega
  · by_cases hc : v.Ports (v.Ports 0) = 0
    · have h0ne : ¬((0 : Nat) = v.Ports 0) := by omega
      simp [next, loadNext, onIffOff, hgt, hc, updateNext, h0ne]
      omega
    · rcases hscan : scanLoop lo (List.range (hi - lo)) v with ⟨res, w⟩
      rcases res with _ | p
      · simp [next, loadNext, onIffOff, hgt, hc, hscan, updateNext]
        omega
      · have hfst : (scanLoop lo (List.range (hi - lo)) v).fst = some p := by
          simp [hscan]
        have hhint := scanLoop_some_hint lo (List.range (hi - lo)) v p hfst
        obtain ⟨n, hn, hp⟩ := scanLoop_mem lo (List.range (hi - lo)) v p hfst
        have hn' : n < hi - lo := List.mem_range.mp hn
        rw [hscan] at hhint
        simp [loadNext] at hhint
        simp [next, loadNext, onIffOff, hgt, hc, hscan]
        omega

/-- `next` never touches a slot strictly below `minPort` (other than the
hint at index `0`), provided the hint starts at `minPort` or above. -/
theorem next_preserves_low (lo hi q : Nat) (v : Vendor) (h0 : 1 ≤ lo)
    (hl : lo ≤ loadNext v) (hq1 : 1 ≤ q) (hq2 : q < lo) :
    (next lo hi v).snd.Ports q = v.Ports q := by
  have hq0 : ¬(q = 0) := by omega
  by_cases hgt : loadNext v > hi
  · simp [next, hgt]
  · by_cases hc : v.Ports (loadNext v) = 0
    · have hqnp : ¬(q = loadNext v) := by omega
      simp [next, hgt, onIffOff, hc, updateNext, hq0, hqnp]
    · have hql : ∀ n ∈ List.range (hi - lo), q ≠ n + lo := by
        intro n hn
        omega
      have hpres := scanLoop_preserves lo (List.range (hi - lo)) v q hq0 hql
      rcases hscan : scanLoop lo (List.range (hi - lo)) v with ⟨res, w⟩
      rw [hscan] at hpres
      simp at hpres
      rcases res with _ | p
      · simp [next, hgt, onIffOff, hc, hscan, updateNext, hq0]
        exact hpres
      · simp [next, hgt, onIffOff, hc, hscan]
        exact hpres

/-- C10: the allocator's implicit hint invariant.  The `init` clamp puts
the hint into `[minPort, maxPort + 1]` from any loaded snapshot, each of
`next`, `assign` and `release` keeps it there, and none of them writes any
slot `q` with `1 ≤ q < minPort` — so ports below `minPort` are never
claimed by the allocator. -/
theorem allocator_hint_invariant (lo hi : Nat) (v : Vendor) (port q : Nat)
    (h0 : 1 ≤ lo) (hr : lo ≤ hi)
    (hl : lo ≤ loadNext v) (hu : loadNext v ≤ hi + 1)
    (hq1 : 1 ≤ q) (hq2 : q < lo) :
    (∀ w : Vendor, lo ≤ loadNext (clampHint lo hi w) ∧
      loadNext (clampHint lo hi w) ≤ hi + 1) ∧
    (lo ≤ loadNext (next lo hi v).snd ∧ loadNext (next lo hi v).snd ≤ hi + 1) ∧
    (lo ≤ loadNext (assign lo hi v port).snd ∧
      loadNext (assign lo hi v port).snd ≤ hi + 1) ∧
    (lo ≤ loadNext (release lo hi v port).snd ∧
      loadNext (release lo hi v port).snd ≤ hi + 1) ∧
    ((next lo hi v).snd.Ports q = v.Ports q ∧
     (assign lo hi v port).snd.Ports q = v.Ports q ∧
     (release lo hi v port).snd.Ports q = v.Ports q) := by
  have hnextb := next_hint_bounds lo hi v h0 hr hl hu
  have hnextp := next_preserves_low lo hi q v h0 hl hq1 hq2
  have hassignb : lo ≤ loadNext (assign lo hi v port).snd ∧
      loadNext (assign lo hi v port).snd ≤ hi + 1 := by
    by_cases hp0 : port = 0
    · simpa [assign, autoPort, hp0] using hnextb
    · by_cases hpr : port < lo ∨ hi < port
      · simp [assign, autoPort, hp0, hpr]
        omega
      · by_cases hc : v.Ports port = 0
        · have hp0' : ¬((0 : Nat) = port) := by omega
          simp [assign, autoPort, hp0, hpr, onIffOff, hc, loadNext, hp0']
          simp only [loadNext] at hl hu
          omega
        · simp [assign, autoPort, hp0, hpr, onIffOff, hc]
          omega
  have hreleaseb : lo ≤ loadNext (release lo hi v port).snd ∧
      loadNext (release lo hi v port).snd ≤ hi + 1 := by
    by_cases hpr : port < lo ∨ hi < port
    · simp [release, hpr]
      omega
    · simp [release, hpr, updateNext, loadNext]
      omega
  have hassignp : (assign lo hi v port).snd.Ports q = v.Ports q := by
    by_cases hp0 : port = 0
    · simpa [assign, autoPort, hp0] using hnextp
    · by_cases hpr : port < lo ∨ hi < port
      · simp [assign, autoPort, hp0, hpr]
      · by_cases hc : v.Ports port = 0
        · have hqp : ¬(q = port) := by omega
          simp [assign, autoPort, hp0, hpr, onIffOff, hc, hqp]
        · simp [assign, autoPort, hp0, hpr, onIffOff, hc]
  have hreleasep : (release lo hi v port).snd.Ports q = v.Ports q := by
    by_cases hpr : port < lo ∨ hi < port
    · simp [release, hpr]
    · have hq0 : ¬(q = 0) := by omega
      have hqp : ¬(q = port) := by omega
      simp [release, hpr, updateNext, off, hq0, hqp]
  exact ⟨fun w => clampHint_bounds lo hi w hr, hnextb, hassignb, hreleaseb,
         hnextp, hassignp, hreleasep⟩

/-- Witness for `allocator_hint_invariant` at range `9000..9002`, the
all-free state, `port = 9000`, `q = 1`. -/
theorem allocator_hint_invariant_witness :
    1 ≤ 9000 ∧ 9000 ≤ 9002 ∧
    9000 ≤ loadNext freeHint9000 ∧ loadNext freeHint9000 ≤ 9002 + 1 ∧
    1 ≤ 1 ∧ 1 < 9000 ∧
    ((∀ w : Vendor, 9000 ≤ loadNext (clampHint 9000 9002 w) ∧
       loadNext (clampHint 9000 9002 w) ≤ 9002 + 1) ∧
     (9000 ≤ loadNext (next 9000 9002 freeHint9000).snd ∧
       loadNext (next 9000 9002 freeHint9000).snd ≤ 9002 + 1) ∧
     (9000 ≤ loadNext (assign 9000 9002 freeHint9000 9000).snd ∧
       loadNext (assign 9000 9002 freeHint9000 9000).snd ≤ 9002 + 1) ∧
     (9000 ≤ loadNext (release 9000 9002 freeHint9000 9000).snd ∧
       loadNext (release 9000 9002 freeHint9000 9000).snd ≤ 9002 + 1) ∧
     ((next 9000 9002 freeHint9000).snd.Ports 1 = freeHint9000.Ports 1 ∧
      (assign 9000 9002 freeHint9000 9000).snd.Ports 1 = freeHint9000.Ports 1 ∧
      (release 9000 9002 freeHint9000 9000).snd.Ports 1 = freeHint9000.Ports 1)) :=
  ⟨by decide, by decide, by decide, by decide, by decide, by decide,
   allocator_hint_invariant 9000 9002 freeHint9000 9000 1
     (by decide) (by decide) (by decide) (by decide) (by decide) (by decide)⟩
